import Mathlib

/-!
Verification of the reactive entity/fetch coordination layer of the
`ha-display-calendar` dashboard card.

The development shallowly embeds the coordination code:

* `src/shared/cacheUtils.ts` (`loadFromCache` / `saveToCache`): a synchronous
  key/value store with per-entry timestamps and a 24-hour TTL, modelled as an
  association list of string keys to timestamped entries.  `localStorage` keys
  carry the `display-calendar:` namespace string.  JSON serialization is not
  modelled: the claims restrict attention to JSON-serializable values, for
  which `JSON.parse(JSON.stringify(v))` round-trips.
* `src/shared/HAContext.tsx` `useCachedFetch`: the hook's four pieces of state
  (`data`, `isFresh`, `isFetching`, `error`), the per-hook generation counter
  `fetchIdRef`, and the cache entry it writes, modelled as a state machine
  whose events are the event-loop turns that touch the state: a `doFetch`
  call (issue) and the resumption of an awaited fetcher (settle with the
  captured token).  Each resumption runs its whole continuation
  (try-body or catch, then finally) in one event-loop turn, so it is one step.
* the `debouncedRefetch` timers of `useMultiCalendarEvents` and
  `useWeatherForecast`, as a single-slot pending-timer machine over
  timestamped trigger events.
* the `useMultiCalendarEvents` fetcher (multi-source aggregation with
  per-source error absorption).
* `BaseHACard._notifyEntityChanges` (listener delivery for one entity id).
* `useWeatherForecast.scheduleHourlyRefetch` (wall-clock-hour timer).
-/

namespace DisplayCalendar

/-! ## Cache Store (`cacheUtils.ts`) -/

/-- `CacheEntry` from `cacheUtils.ts`: `{ data: T; timestamp: number }`.
Timestamps are epoch milliseconds (`Date.now()`), modelled as `Int`. -/
structure CacheEntry (V : Type) where
  data : V
  timestamp : Int
deriving DecidableEq, Repr

/-- `CACHE_PREFIX = 'display-calendar:'`, the namespace put before every
`localStorage` key. -/
def CACHE_NAMESPACE : String := "display-calendar:"

/-- `CACHE_EXPIRY_MS = 24 * 60 * 60 * 1000` (24 hours). -/
def CACHE_EXPIRY_MS : Int := 24 * 60 * 60 * 1000

/-- `localStorage`, restricted to the deserialized entries this module stores:
an association list from key strings to cache entries.  The front-most
binding for a key is the current one. -/
abbrev Storage (V : Type) := List (String × CacheEntry V)

/-- `localStorage.getItem(k)` (already parsed). -/
def getItem {V : Type} (st : Storage V) (k : String) : Option (CacheEntry V) :=
  (st.find? (fun p => p.1 == k)).map (fun p => p.2)

/-- `localStorage.removeItem(k)`. -/
def removeItem {V : Type} (st : Storage V) (k : String) : Storage V :=
  st.filter (fun p => !(p.1 == k))

/-- `localStorage.setItem(k, e)`: replaces any existing binding for `k`. -/
def setItem {V : Type} (st : Storage V) (k : String) (e : CacheEntry V) : Storage V :=
  (k, e) :: removeItem st k

/-- `loadFromCache<T>(key)` from `cacheUtils.ts`, with `Date.now()` passed
explicitly as `now`.  Returns the loaded value (or `none`) together with the
storage after the read, since an expired entry is removed by the read. -/
def loadFromCache {V : Type} (now : Int) (st : Storage V) (key : String) :
    Option V × Storage V :=
  match getItem st (CACHE_NAMESPACE ++ key) with
  | none => (none, st)
  | some entry =>
      if now - entry.timestamp > CACHE_EXPIRY_MS then
        (none, removeItem st (CACHE_NAMESPACE ++ key))
      else
        (some entry.data, st)

/-- `saveToCache<T>(key, data)` from `cacheUtils.ts`, with `Date.now()` passed
explicitly as `now`. -/
def saveToCache {V : Type} (now : Int) (st : Storage V) (key : String) (data : V) :
    Storage V :=
  setItem st (CACHE_NAMESPACE ++ key) ⟨data, now⟩

theorem getItem_setItem {V : Type} (st : Storage V) (k : String) (e : CacheEntry V) :
    getItem (setItem st k e) k = some e := by
  simp [getItem, setItem, List.find?]

theorem getItem_removeItem {V : Type} (st : Storage V) (k : String) :
    getItem (removeItem st k) k = none := by
  induction st with
  | nil => rfl
  | cons p rest ih =>
      by_cases h : p.1 == k
      · simp [removeItem, List.filter, h] at ih ⊢
        exact ih
      · simp only [removeItem, List.filter, h] at ih ⊢
        simp only [Bool.not_false, getItem, List.find?, h] at ih ⊢
        exact ih

/-- C3: a value saved at time `t0` is returned by a load at any time `t` with
`t - t0 ≤ CACHE_EXPIRY_MS` (24 h); a load at any `t` with
`t - t0 > CACHE_EXPIRY_MS` returns `none` and removes the expired entry from
storage as a side effect of that read. -/
theorem cache_ttl_roundtrip {V : Type} (st : Storage V) (key : String) (v : V)
    (t0 t : Int) :
    (t - t0 ≤ CACHE_EXPIRY_MS →
        (loadFromCache t (saveToCache t0 st key v) key).1 = some v)
    ∧ (t - t0 > CACHE_EXPIRY_MS →
        (loadFromCache t (saveToCache t0 st key v) key).1 = none
        ∧ getItem (loadFromCache t (saveToCache t0 st key v) key).2
            (CACHE_NAMESPACE ++ key) = none) := by
  constructor
  · intro h
    simp [loadFromCache, saveToCache, getItem_setItem, not_lt.mpr h]
  · intro h
    have hgt : CACHE_EXPIRY_MS < t - t0 := h
    constructor
    · simp [loadFromCache, saveToCache, getItem_setItem, hgt]
    · simp [loadFromCache, saveToCache, getItem_setItem, hgt, getItem_removeItem]

/-- Witness for C3 at Scenario A's key: save `70` at `t = 0`, read back at
23 h (hit) and at 25 h (expired, removed). -/
theorem cache_ttl_roundtrip_witness :
    (loadFromCache (23 * 3600000)
        (saveToCache 0 ([] : Storage Nat) "forecast:weather.home:daily" 70)
        "forecast:weather.home:daily").1 = some 70
    ∧ (loadFromCache (25 * 3600000)
        (saveToCache 0 ([] : Storage Nat) "forecast:weather.home:daily" 70)
        "forecast:weather.home:daily").1 = none := by
  refine ⟨?_, ?_⟩
  · exact (cache_ttl_roundtrip ([] : Storage Nat) "forecast:weather.home:daily"
      70 0 (23 * 3600000)).1 (by decide)
  · exact ((cache_ttl_roundtrip ([] : Storage Nat) "forecast:weather.home:daily"
      70 0 (25 * 3600000)).2 (by decide)).1

/-! ## Fetch Coordinator (`useCachedFetch` in `HAContext.tsx`)

The hook's coordination state.  `data`, `isFresh`, `isFetching`, `error` are
the four `useState` cells; `fetchId` is `fetchIdRef.current` (the latest
issued generation token); `cache` is the value held by the Cache Store entry
for the hook's `cacheKey` (`saveToCache` writes it; its timestamp is handled
by the Cache Store model above).  In the code `data` is `T | undefined` and
the status check is JS truthiness `!data`; every value this hook stores is an
array (always truthy in JS), so presence is modelled by `Option`. -/
structure FetchState (T E : Type) where
  data : Option T
  isFresh : Bool
  isFetching : Bool
  error : Option E
  fetchId : Nat
  cache : Option T
deriving DecidableEq, Repr

/-- Hook state at mount: `data` is seeded synchronously from the Cache Store
(`useState(() => loadFromCache(cacheKey))`), `isFresh`/`isFetching` start
false, no error, `fetchIdRef.current = 0`.  `cached` is the Cache Store's
current value for the key (`none` on a cache miss), which is also the seed. -/
def initialState {T E : Type} (cached : Option T) : FetchState T E :=
  { data := cached, isFresh := false, isFetching := false, error := none,
    fetchId := 0, cache := cached }

/-- The event-loop turns of `doFetch` that touch hook state:
`issue` is a call of `doFetch` up to the `await` (`++fetchIdRef.current`,
`setIsFetching(true)`, `setError(undefined)`; the new fetch captures token
`fetchId + 1`); `settleSuccess tok v` / `settleFailure tok e` are the
resumption after the awaited `fetcher()` fulfills or rejects for the fetch
that captured `tok` (try-body or catch, then `finally`, each guarded by
`tok == fetchIdRef.current`). -/
inductive FetchEvent (T E : Type)
  | issue
  | settleSuccess (tok : Nat) (v : T)
  | settleFailure (tok : Nat) (e : E)
deriving DecidableEq, Repr

/-- One event-loop turn of `doFetch`, translated from
`HAContext.tsx` lines 970–992. -/
def step {T E : Type} (ev : FetchEvent T E) (s : FetchState T E) : FetchState T E :=
  match ev with
  | .issue =>
      { s with fetchId := s.fetchId + 1, isFetching := true, error := none }
  | .settleSuccess tok v =>
      if tok = s.fetchId then
        { s with data := some v, isFresh := true, cache := some v, isFetching := false }
      else s
  | .settleFailure tok e =>
      if tok = s.fetchId then
        { s with error := some e, isFetching := false }
      else s

/-- A whole schedule of event-loop turns, applied in order. -/
def run {T E : Type} (evs : List (FetchEvent T E)) (s : FetchState T E) :
    FetchState T E :=
  evs.foldl (fun s e => step e s) s

/-- `FetchStatus` from `HAContext.tsx`. -/
inductive FetchStatus
  | loading
  | cached
  | refreshing
  | ready
deriving DecidableEq, Repr

/-- The status `useMemo` of `useCachedFetch` (`HAContext.tsx` lines
1001–1006), with JS truthiness of `data` rendered as `Option.isSome`. -/
def deriveStatus {T : Type} (data : Option T) (isFresh isFetching : Bool) :
    FetchStatus :=
  if data.isNone && isFetching then .loading
  else if data.isSome && !isFresh && isFetching then .cached
  else if data.isSome && isFresh && isFetching then .refreshing
  else .ready

/-- The status the hook reports in a given state. -/
def statusOf {T E : Type} (s : FetchState T E) : FetchStatus :=
  deriveStatus s.data s.isFresh s.isFetching

/-- An event that neither issues a fetch nor settles with token `n`: the
events that may still occur after the fetch with token `n` is the last
issued one (stale settles of superseded fetches). -/
def staleFor {T E : Type} (n : Nat) : FetchEvent T E → Bool
  | .issue => false
  | .settleSuccess tok _ => tok != n
  | .settleFailure tok _ => tok != n

theorem step_staleFor {T E : Type} (s : FetchState T E) (e : FetchEvent T E)
    (h : staleFor s.fetchId e = true) : step e s = s := by
  cases e with
  | issue => simp [staleFor] at h
  | settleSuccess tok v =>
      simp only [staleFor, bne_iff_ne, ne_eq] at h
      simp [step, h]
  | settleFailure tok err =>
      simp only [staleFor, bne_iff_ne, ne_eq] at h
      simp [step, h]

theorem run_staleFor {T E : Type} (evs : List (FetchEvent T E))
    (s : FetchState T E) (h : ∀ e ∈ evs, staleFor s.fetchId e = true) :
    run evs s = s := by
  induction evs with
  | nil => rfl
  | cons e rest ih =>
      have he : step e s = s := step_staleFor s e (h e (by simp))
      have hrest : ∀ e' ∈ rest, staleFor s.fetchId e' = true := by
        intro e' he'
        exact h e' (by simp [he'])
      simp only [run, List.foldl_cons, he]
      exact ih hrest

/-- C1: last-issued-wins.  For any schedule `pre` of event-loop turns, if the
fetch whose token is the latest issued one (`(run pre s0).fetchId`) settles
successfully with `v`, and afterwards only turns of superseded fetches occur
(no new issue, no settle with that token — each token settles at most once),
then the finally committed live `data` and Cache Store value both equal `v`,
regardless of how the superseded fetches' completions are ordered around it:
a settle whose captured token no longer equals the key's latest token commits
nothing. -/
theorem last_issued_wins {T E : Type} (pre post : List (FetchEvent T E))
    (s0 : FetchState T E) (v : T)
    (hpost : ∀ e ∈ post, staleFor (run pre s0).fetchId e = true) :
    (run (pre ++ FetchEvent.settleSuccess (run pre s0).fetchId v :: post) s0).data
      = some v
    ∧ (run (pre ++ FetchEvent.settleSuccess (run pre s0).fetchId v :: post) s0).cache
      = some v := by
  have hsplit :
      run (pre ++ FetchEvent.settleSuccess (run pre s0).fetchId v :: post) s0
        = run post (step (FetchEvent.settleSuccess (run pre s0).fetchId v)
            (run pre s0)) := by
    simp [run, List.foldl_append]
  set s1 := run pre s0 with hs1
  have hstep : step (FetchEvent.settleSuccess s1.fetchId v) s1
      = { s1 with data := some v, isFresh := true, cache := some v, isFetching := false } := by
    simp [step]
  have hid : (step (FetchEvent.settleSuccess s1.fetchId v) s1).fetchId
      = s1.fetchId := by
    rw [hstep]
  have hpost' : ∀ e ∈ post,
      staleFor (step (FetchEvent.settleSuccess s1.fetchId v) s1).fetchId e
        = true := by
    intro e he
    rw [hid]
    exact hpost e he
  have hrun : run post (step (FetchEvent.settleSuccess s1.fetchId v) s1)
      = step (FetchEvent.settleSuccess s1.fetchId v) s1 :=
    run_staleFor post _ hpost'
  rw [hsplit, hrun, hstep]
  exact ⟨rfl, rfl⟩

/-- Witness for C1, Scenario C shape: two fetches issued (tokens 1 and 2);
the newer (token 2) resolves to `42` first, the superseded token-1 fetch
resolves to `99` later; final `data` and cache are `42`. -/
theorem last_issued_wins_witness :
    (run ([FetchEvent.issue, FetchEvent.issue] ++
        FetchEvent.settleSuccess
          (run [FetchEvent.issue, FetchEvent.issue]
            (@initialState Nat Unit none)).fetchId 42 ::
        [FetchEvent.settleSuccess 1 99])
      (@initialState Nat Unit none)).data = some 42
    ∧ (run ([FetchEvent.issue, FetchEvent.issue] ++
        FetchEvent.settleSuccess
          (run [FetchEvent.issue, FetchEvent.issue]
            (@initialState Nat Unit none)).fetchId 42 ::
        [FetchEvent.settleSuccess 1 99])
      (@initialState Nat Unit none)).cache = some 42 :=
  last_issued_wins [FetchEvent.issue, FetchEvent.issue]
    [FetchEvent.settleSuccess 1 99] (initialState none) 42 (by decide)

/-- C10 (frame effect of a superseded fetch): a settle whose captured token
differs from the latest issued token leaves the entire hook state unchanged —
`data`, `isFresh`, `error`, the Cache Store value, and also `isFetching`,
since the `finally` clearing it is guarded by the same token check. -/
theorem stale_settle_noop {T E : Type} (s : FetchState T E) (tok : Nat)
    (v : T) (err : E) (h : tok ≠ s.fetchId) :
    step (FetchEvent.settleSuccess tok v) s = s
    ∧ step (FetchEvent.settleFailure tok err) s = s := by
  constructor <;> simp [step, h]

/-- Witness for C10: a token-1 settle in a state whose latest token is 2. -/
theorem stale_settle_noop_witness :
    step (FetchEvent.settleSuccess 1 (7 : Nat))
        ⟨some 5, true, true, none, 2, some 5⟩
      = (⟨some 5, true, true, none, 2, some 5⟩ : FetchState Nat Unit)
    ∧ step (FetchEvent.settleFailure 1 ())
        ⟨some 5, true, true, none, 2, some 5⟩
      = (⟨some 5, true, true, none, 2, some 5⟩ : FetchState Nat Unit) :=
  stale_settle_noop ⟨some 5, true, true, none, 2, some 5⟩ 1 7 () (by decide)

/-- C7: a fetcher rejection whose captured token still matches the latest
token surfaces the error and clears the in-flight flag, leaving `data`, the
freshness flag, the Cache Store value and the token untouched (previously
cached or fetched data stays visible); a rejection with a stale token is
discarded silently, changing nothing. -/
theorem failure_surfaces_error_keeps_data {T E : Type} (s : FetchState T E)
    (tok : Nat) (err : E) :
    (tok = s.fetchId →
        step (FetchEvent.settleFailure tok err) s
          = { s with error := some err, isFetching := false })
    ∧ (tok ≠ s.fetchId → step (FetchEvent.settleFailure tok err) s = s) := by
  constructor <;> intro h <;> simp [step, h]

/-- Witness for C7: a matching-token failure in a state holding cached data
keeps `data = some 5` and the cache, sets the error, clears in-flight. -/
theorem failure_surfaces_error_keeps_data_witness :
    step (FetchEvent.settleFailure 3 ())
        (⟨some 5, false, true, none, 3, some 5⟩ : FetchState Nat Unit)
      = ⟨some 5, false, false, some (), 3, some 5⟩ :=
  (failure_surfaces_error_keeps_data
    (⟨some 5, false, true, none, 3, some 5⟩ : FetchState Nat Unit) 3 ()).1 rfl

/-- C2 counterexample: in a hook state with zero in-flight history and a
cache miss (the mount state before any `doFetch` turn has run, seeded from a
missed cache lookup), the status `useMemo` returns `ready`, not `loading`:
the `loading` branch additionally requires a fetch to be in flight. -/
theorem status_initial_miss_is_ready :
    statusOf (@initialState Nat Unit none) = FetchStatus.ready
    ∧ FetchStatus.ready ≠ FetchStatus.loading := by
  constructor
  · rfl
  · decide

/-- C2 amended: status is the pure function of
(has-data, is-data-fresh, is-fetch-in-flight) computed by the hook:
`loading` iff there is no data AND a fetch is in flight; `cached` iff data is
present, not fresh, and a fetch is in flight; `refreshing` iff data is
present, fresh, and a fetch is in flight; `ready` iff no fetch is in flight —
in particular a key with zero in-flight history and a cache miss reports
`ready` (with `data` absent), and reports `loading` only once the
mount-triggered fetch is in flight. -/
theorem status_characterization {T : Type} (d : Option T) (fr fe : Bool) :
    (deriveStatus d fr fe = FetchStatus.loading ↔ d = none ∧ fe = true)
    ∧ (deriveStatus d fr fe = FetchStatus.cached
        ↔ d.isSome = true ∧ fr = false ∧ fe = true)
    ∧ (deriveStatus d fr fe = FetchStatus.refreshing
        ↔ d.isSome = true ∧ fr = true ∧ fe = true)
    ∧ (deriveStatus d fr fe = FetchStatus.ready ↔ fe = false) := by
  cases d <;> cases fr <;> cases fe <;> simp [deriveStatus]

/-- C9: the freshness flag is written `true` by the matching-token success
turn (which also makes `data` present) and is never reset by any later turn
of the hook instance; `data`, once present, is never cleared either.  So
after the first success the status can never be `cached` again: any later
in-flight fetch reports `refreshing` and a later failed refetch (in-flight
cleared, data retained) reports `ready`. -/
theorem fresh_never_resets {T E : Type} :
    (∀ (s : FetchState T E) (v : T),
        (step (FetchEvent.settleSuccess s.fetchId v) s).isFresh = true
        ∧ (step (FetchEvent.settleSuccess s.fetchId v) s).data.isSome = true)
    ∧ (∀ (evs : List (FetchEvent T E)) (s : FetchState T E),
        s.isFresh = true → (run evs s).isFresh = true)
    ∧ (∀ (evs : List (FetchEvent T E)) (s : FetchState T E),
        s.data.isSome = true → (run evs s).data.isSome = true)
    ∧ (∀ s : FetchState T E,
        s.isFresh = true → statusOf s ≠ FetchStatus.cached)
    ∧ (∀ s : FetchState T E,
        s.isFresh = true → s.data.isSome = true → s.isFetching = true →
          statusOf s = FetchStatus.refreshing)
    ∧ (∀ s : FetchState T E,
        s.isFetching = false → statusOf s = FetchStatus.ready) := by
  have hstep : ∀ (s : FetchState T E) (e : FetchEvent T E),
      s.isFresh = true → (step e s).isFresh = true := by
    intro s e h
    cases e with
    | issue => simpa [step] using h
    | settleSuccess tok v =>
        by_cases htok : tok = s.fetchId <;> simp [step, htok, h]
    | settleFailure tok err =>
        by_cases htok : tok = s.fetchId <;> simp [step, htok, h]
  have hdstep : ∀ (s : FetchState T E) (e : FetchEvent T E),
      s.data.isSome = true → (step e s).data.isSome = true := by
    intro s e h
    cases e with
    | issue => simpa [step] using h
    | settleSuccess tok v =>
        by_cases htok : tok = s.fetchId <;> simp [step, htok, h]
    | settleFailure tok err =>
        by_cases htok : tok = s.fetchId <;> simp [step, htok, h]
  refine ⟨?_, ?_, ?_, ?_, ?_, ?_⟩
  · intro s v
    constructor <;> simp [step]
  · intro evs
    induction evs with
    | nil => intro s h; exact h
    | cons e rest ih =>
        intro s h
        simp only [run, List.foldl_cons]
        exact ih (step e s) (hstep s e h)
  · intro evs
    induction evs with
    | nil => intro s h; exact h
    | cons e rest ih =>
        intro s h
        simp only [run, List.foldl_cons]
        exact ih (step e s) (hdstep s e h)
  · intro s h
    rcases s with ⟨d, fr, fe, er, id, c⟩
    simp only at h
    subst h
    cases d <;> cases fe <;> simp [statusOf, deriveStatus]
  · intro s hfr hd hfe
    rcases s with ⟨d, fr, fe, er, id, c⟩
    simp only at hfr hfe
    subst hfr; subst hfe
    cases d with
    | none => simp at hd
    | some x => simp [statusOf, deriveStatus]
  · intro s hfe
    rcases s with ⟨d, fr, fe, er, id, c⟩
    simp only at hfe
    subst hfe
    cases d <;> cases fr <;> simp [statusOf, deriveStatus]

/-- Witness for C9: from a fresh state with data, a trace of a later refetch
(issue, then matching failure) never shows `cached`: it shows `refreshing`
while in flight and `ready` after the failed settle; and a matching success
from the mount state sets the freshness flag. -/
theorem fresh_never_resets_witness :
    (step (FetchEvent.settleSuccess 0 (5 : Nat))
        (@initialState Nat Unit none)).isFresh = true
    ∧ (run [FetchEvent.issue, FetchEvent.settleFailure 1 ()]
        (⟨some 5, true, false, none, 0, some 5⟩ : FetchState Nat Unit)).isFresh
        = true
    ∧ statusOf (⟨some 5, true, true, none, 1, some 5⟩ : FetchState Nat Unit)
        = FetchStatus.refreshing
    ∧ statusOf (⟨some 5, true, false, some (), 1, some 5⟩ : FetchState Nat Unit)
        = FetchStatus.ready := by
  refine ⟨?_, ?_, ?_, ?_⟩
  · exact ((@fresh_never_resets Nat Unit).1
      (initialState none) 5).1
  · exact (@fresh_never_resets Nat Unit).2.1
      [FetchEvent.issue, FetchEvent.settleFailure 1 ()]
      ⟨some 5, true, false, none, 0, some 5⟩ rfl
  · exact (@fresh_never_resets Nat Unit).2.2.2.2.1
      ⟨some 5, true, true, none, 1, some 5⟩ rfl rfl rfl
  · exact (@fresh_never_resets Nat Unit).2.2.2.2.2
      ⟨some 5, true, false, some (), 1, some 5⟩ rfl

/-! ## Debounce/Invalidation Controller (`debouncedRefetch`)

`useMultiCalendarEvents` (HAContext.tsx lines 1176–1184) and
`useWeatherForecast` (lines 1259–1268) both keep one pending timer in
`debounceTimerRef`; each trigger runs
`clearTimeout(pending); pending = setTimeout(refetch, 500)`.
The controller is modelled as a machine over trigger timestamps (ms): the
second argument is the pending timer's deadline (`none` when no timer is
pending).  Between consecutive triggers the event loop fires a pending timer
whose deadline has passed (emitting its refetch time); a trigger arriving
before the deadline cancels the timer.  After the last trigger the pending
timer fires.  The returned list is the times at which `refetch` runs. -/
def DEBOUNCE_MS : Int := 500

/-- Fire times of the debounced refetch, given the (time-ordered) trigger
timestamps and the currently pending deadline. -/
def debounceRun : List Int → Option Int → List Int
  | [], none => []
  | [], some d => [d]
  | t :: rest, none => debounceRun rest (some (t + DEBOUNCE_MS))
  | t :: rest, some d =>
      if d ≤ t then d :: debounceRun rest (some (t + DEBOUNCE_MS))
      else debounceRun rest (some (t + DEBOUNCE_MS))

theorem debounceRun_chain (ts : List Int) (t : Int)
    (h : List.Chain (fun a b => a ≤ b ∧ b - a < DEBOUNCE_MS) t ts) :
    debounceRun ts (some (t + DEBOUNCE_MS))
      = [(t :: ts).getLast (List.cons_ne_nil t ts) + DEBOUNCE_MS] := by
  induction ts generalizing t with
  | nil => rfl
  | cons t' rest ih =>
      rcases List.chain_cons.mp h with ⟨⟨hle, hlt⟩, hchain⟩
      have hnf : ¬ (t + DEBOUNCE_MS ≤ t') := by omega
      have hrec := ih t' hchain
      simp only [debounceRun, if_neg hnf]
      rw [hrec]
      simp [List.getLast_cons]

/-- C4: for every burst of `N ≥ 1` triggers on the same logical group in
which each trigger arrives less than 500 ms after the previous one, exactly
one refetch fires, 500 ms after the last trigger of the burst; each new
trigger cancels and replaces the pending debounce timer, which is why no
earlier deadline survives to fire. -/
theorem debounce_burst_single_fire (t : Int) (ts : List Int)
    (h : List.Chain (fun a b => a ≤ b ∧ b - a < DEBOUNCE_MS) t ts) :
    debounceRun (t :: ts) none
      = [(t :: ts).getLast (List.cons_ne_nil t ts) + DEBOUNCE_MS] := by
  simp only [debounceRun]
  exact debounceRun_chain ts t h

/-- Witness for C4, Scenario D: triggers at 0 ms, 100 ms, 200 ms with the
500 ms debounce produce exactly one refetch, at 700 ms. -/
theorem debounce_burst_single_fire_witness :
    debounceRun [0, 100, 200] none = [700] := by
  have h := debounce_burst_single_fire 0 [100, 200] (by
    refine List.chain_cons.mpr ⟨⟨by decide, by decide⟩, ?_⟩
    exact List.chain_cons.mpr ⟨⟨by decide, by decide⟩, List.Chain.nil⟩)
  simpa [DEBOUNCE_MS] using h

/-! ## Multi-Source Aggregator (`useMultiCalendarEvents.fetcher`)

HAContext.tsx lines 1126–1168: fan the `calendar/get_events` request out to
every configured calendar in parallel; each per-calendar request is wrapped
in its own try/catch so a rejection contributes `[]` (plus a logged warning)
instead of rejecting the aggregate; successes are tagged with their
`calendarId` and the contributions flattened in source order. -/

/-- `CalendarEvent` from HAContext.tsx (`calendar/get_events` item).  The
`end` field is called `endTime` because `end` is a Lean keyword. -/
structure CalendarEvent where
  start : String
  endTime : String
  summary : String
  description : Option String := none
  location : Option String := none
  uid : Option String := none
deriving DecidableEq, Repr

/-- `CalendarEventWithSource`: an event with its source `calendarId`. -/
structure CalendarEventWithSource extends CalendarEvent where
  calendarId : String
deriving DecidableEq, Repr

/-- One per-calendar request through the backend connection, already
projected to `result.response?.[entityId]?.events` (`none` models a missing
response entry, handled by `?? []`); `Except.error` models a rejected
`sendMessagePromise`. -/
def CalendarRequest (Err : Type) : Type :=
  String → Except Err (Option (List CalendarEvent))

/-- The `fetcher` of `useMultiCalendarEvents` (assuming the connection is
available): the empty-source short-circuit, then the per-source try/catch,
tagging, and flatten, translated from lines 1132–1167. -/
def fetchCalendarEvents {Err : Type} (entityIds : List String)
    (request : CalendarRequest Err) : List CalendarEventWithSource :=
  if entityIds.isEmpty then []
  else
    (entityIds.map (fun entityId =>
      match request entityId with
      | .ok events =>
          (events.getD []).map
            (fun e => { toCalendarEvent := e, calendarId := entityId })
      | .error _ => [])).flatten

/-- Whether the per-source request for `id` succeeds. -/
def requestOk {Err : Type} (request : CalendarRequest Err) (id : String) :
    Bool :=
  (request id).toOption.isSome

theorem length_filter_add_length_filter_not {α : Type} (p : α → Bool)
    (l : List α) :
    (l.filter p).length + (l.filter (fun x => !(p x))).length = l.length := by
  induction l with
  | nil => rfl
  | cons a rest ih =>
      by_cases h : p a <;> simp [List.filter, h] <;> omega

/-- The contribution one source makes to the aggregate: its tagged events on
success, zero items on rejection. -/
def contributionOf {Err : Type} (request : CalendarRequest Err)
    (entityId : String) : List CalendarEventWithSource :=
  match request entityId with
  | .ok events =>
      (events.getD []).map
        (fun e => { toCalendarEvent := e, calendarId := entityId })
  | .error _ => []

theorem fetchCalendarEvents_eq_contributions {Err : Type}
    (entityIds : List String) (request : CalendarRequest Err) :
    fetchCalendarEvents entityIds request
      = (entityIds.map (contributionOf request)).flatten := by
  cases entityIds with
  | nil => rfl
  | cons a rest => rfl

theorem flatten_contributions_eq_ok_flatten {Err : Type}
    (request : CalendarRequest Err) (l : List String) :
    (l.map (contributionOf request)).flatten
      = ((l.filter (fun id => requestOk request id)).map
          (contributionOf request)).flatten := by
  induction l with
  | nil => rfl
  | cons b rest ih =>
      rcases hreq : request b with err | events <;>
        simp [List.filter_cons, requestOk, contributionOf, hreq,
          Except.toOption, ih]

theorem calendarId_of_mem_contributionOf {Err : Type}
    (request : CalendarRequest Err) (entityId : String)
    (item : CalendarEventWithSource)
    (h : item ∈ contributionOf request entityId) :
    item.calendarId = entityId := by
  rcases hreq : request entityId with err | events <;>
    rw [contributionOf, hreq] at h
  · simp at h
  · rcases List.mem_map.mp h with ⟨e, _, he⟩
    subst he
    rfl

/-- C5: a multi-source fetch over `n` source ids of which `k` reject does
not reject (the aggregate is a total function of the per-source outcomes,
every rejection being absorbed into an empty contribution); it returns the
flattened contributions of exactly the `n − k` succeeding sources,
preserving source order, each item tagged with the id of the (succeeding)
source it came from; a failing source contributes zero items. -/
theorem multi_source_failure_tolerance {Err : Type} (entityIds : List String)
    (request : CalendarRequest Err) (n k : Nat)
    (hn : entityIds.length = n)
    (hk : (entityIds.filter (fun id => !(requestOk request id))).length = k) :
    (entityIds.filter (fun id => requestOk request id)).length = n - k
    ∧ fetchCalendarEvents entityIds request
      = ((entityIds.filter (fun id => requestOk request id)).map
          (contributionOf request)).flatten
    ∧ (∀ id, requestOk request id = false → contributionOf request id = [])
    ∧ ∀ item ∈ fetchCalendarEvents entityIds request,
        requestOk request item.calendarId = true
        ∧ item.calendarId ∈ entityIds := by
  have hsplit := length_filter_add_length_filter_not
    (fun id => requestOk request id) entityIds
  have hok : fetchCalendarEvents entityIds request
      = ((entityIds.filter (fun id => requestOk request id)).map
          (contributionOf request)).flatten := by
    rw [fetchCalendarEvents_eq_contributions]
    exact flatten_contributions_eq_ok_flatten request entityIds
  refine ⟨by omega, hok, ?_, ?_⟩
  · intro id hfail
    rcases hreq : request id with err | events
    · simp [contributionOf, hreq]
    · exfalso
      rw [requestOk, hreq] at hfail
      simp [Except.toOption] at hfail
  · intro item hitem
    rw [hok] at hitem
    rcases List.mem_flatten.mp hitem with ⟨contrib, hcontrib, hmem⟩
    rcases List.mem_map.mp hcontrib with ⟨entityId, hid, hcon⟩
    have hfil := List.mem_filter.mp hid
    have heq : item.calendarId = entityId := by
      subst hcon
      exact calendarId_of_mem_contributionOf request entityId item hmem
    rw [heq]
    exact ⟨hfil.2, hfil.1⟩

/-- Witness for C5, Scenario B: sources `calendar.a` (succeeds with one
event) and `calendar.b` (rejects); the aggregate has contributions from
exactly `2 − 1` sources and equals `calendar.a`'s tagged events. -/
theorem multi_source_failure_tolerance_witness :
    ((["calendar.a", "calendar.b"] : List String).filter
        (fun id => requestOk
          (fun id => if id = "calendar.a"
            then Except.ok (some [⟨"s", "e", "Meeting", none, none, none⟩])
            else Except.error ()) id)).length = 2 - 1
    ∧ fetchCalendarEvents ["calendar.a", "calendar.b"]
        (fun id => if id = "calendar.a"
          then Except.ok (some [⟨"s", "e", "Meeting", none, none, none⟩])
          else Except.error ())
      = [⟨⟨"s", "e", "Meeting", none, none, none⟩, "calendar.a"⟩] := by
  have h := @multi_source_failure_tolerance Unit
    ["calendar.a", "calendar.b"]
    (fun id => if id = "calendar.a"
      then Except.ok (some [⟨"s", "e", "Meeting", none, none, none⟩])
      else Except.error ()) 2 1 (by decide) (by decide)
  refine ⟨h.1, ?_⟩
  rw [h.2.1]
  decide

/-! ## Subscription Registry delivery (`BaseHACard._notifyEntityChanges`)

HAContext.tsx lines 1449–1457: delivery to one entity id's listener set is
`listeners.forEach(listener => listener(entity))`, with no try/catch around
the listener call.  A listener is modelled by its observable behaviour on
the delivered entity value: `none` means it returns normally, `some err`
means it throws `err`.  `Set.forEach` visits listeners in insertion order;
an exception thrown by a callback propagates out of `forEach` and stops the
iteration, so the model returns the number of listeners that were invoked
before delivery stopped (every listener up to and including the first
throwing one). -/
def notifyListeners {α E : Type} : List (α → Option E) → α → Nat
  | [], _ => 0
  | l :: rest, entity =>
      match l entity with
      | some _ => 1
      | none => 1 + notifyListeners rest entity

/-- C6 counterexample: two listeners registered for the same entity id, the
first of which throws; delivering one notification invokes only 1 of the 2
listeners — the throwing listener does prevent delivery to its sibling. -/
theorem notify_throw_stops_delivery :
    notifyListeners
        [fun (_ : Nat) => some (), fun (_ : Nat) => (none : Option Unit)] 0 = 1
    ∧ (1 : Nat) ≠ 2 := by
  constructor
  · rfl
  · decide

/-- C6 amended: delivering a notification to an entity id reaches the
listeners for that id in registration order only up to and including the
first listener that throws (whose exception propagates out of the delivery
loop); every listener after it receives nothing.  When no listener throws,
all of them are reached. -/
theorem notify_reaches_until_first_throw {α E : Type}
    (listeners : List (α → Option E)) (entity : α) :
    notifyListeners listeners entity
      = min listeners.length
          ((listeners.takeWhile (fun l => (l entity).isNone)).length + 1) := by
  induction listeners with
  | nil => rfl
  | cons l rest ih =>
      cases hl : l entity with
      | some err =>
          simp [notifyListeners, List.takeWhile_cons, hl]
      | none =>
          have hnl : notifyListeners (l :: rest) entity
              = 1 + notifyListeners rest entity := by
            simp [notifyListeners, hl]
          have htw : (l :: rest).takeWhile (fun f => (f entity).isNone)
              = l :: rest.takeWhile (fun f => (f entity).isNone) := by
            simp [List.takeWhile_cons, hl]
          rw [hnl, htw, ih]
          simp only [List.length_cons]
          rw [show (rest.takeWhile (fun f => (f entity).isNone)).length + 1 + 1
              = ((rest.takeWhile (fun f => (f entity).isNone)).length + 1) + 1 from rfl,
            Nat.add_min_add_right]
          exact Nat.add_comm 1 _

/-! ## Scheduled Refresh Timer (`useWeatherForecast.scheduleHourlyRefetch`)

HAContext.tsx lines 1270–1290.  Each arming first runs
`clearTimeout(hourlyTimerRef.current)`, then computes
`nextHour = new Date(now); nextHour.setHours(now.getHours() + 1, 0, 0, 0)`
and arms a one-shot timer for `nextHour.getTime() - now.getTime()`
milliseconds; the timer callback calls `refetch()` and then calls
`scheduleHourlyRefetch()` again.  Times are milliseconds on the local-time
axis (so `getHours` and `setHours` are plain arithmetic on the day). -/
def MS_PER_HOUR : Nat := 60 * 60 * 1000

def MS_PER_DAY : Nat := 24 * MS_PER_HOUR

/-- `date.getHours()` for a local-time epoch-millisecond value. -/
def getHoursOfMs (now : Nat) : Nat := now % MS_PER_DAY / MS_PER_HOUR

/-- `d.setHours(h, 0, 0, 0)` on a copy of `now`: same local day, hour `h`,
minutes, seconds and milliseconds zeroed (`h = 24` rolls into the next
day, as `Date.setHours` does). -/
def setHoursZeroed (now h : Nat) : Nat := now / MS_PER_DAY * MS_PER_DAY + h * MS_PER_HOUR

/-- `msUntilNextHour = nextHour.getTime() - now.getTime()`. -/
def msUntilNextHour (now : Nat) : Nat :=
  setHoursZeroed now (getHoursOfMs now + 1) - now

/-- The moment the armed one-shot timer fires (and `refetch()` runs). -/
def nextFireTime (now : Nat) : Nat := now + msUntilNextHour now

/-- `armHourlyTimer`: arming replaces whatever timer was pending
(`clearTimeout` then `setTimeout`), leaving exactly one pending deadline. -/
def armHourlyTimer (pending : Option Nat) (now : Nat) : Option Nat :=
  match pending with
  | some _ => some (nextFireTime now)
  | none => some (nextFireTime now)

/-- The `n`-th refetch of the self-rescheduling loop started at `now`
(on firing, the callback refetches and immediately re-arms). -/
def hourlyFireTimes (now : Nat) : Nat → Nat
  | 0 => nextFireTime now
  | n + 1 => nextFireTime (hourlyFireTimes now n)

theorem nextFireTime_eq (now : Nat) :
    nextFireTime now = (now / MS_PER_HOUR + 1) * MS_PER_HOUR := by
  simp only [nextFireTime, msUntilNextHour, setHoursZeroed, getHoursOfMs,
    MS_PER_DAY, MS_PER_HOUR]
  omega

theorem hourlyFireTimes_mod (now : Nat) (n : Nat) :
    hourlyFireTimes now n % MS_PER_HOUR = 0 := by
  cases n with
  | zero => simp [hourlyFireTimes, nextFireTime_eq, Nat.mul_mod_left]
  | succ m => simp [hourlyFireTimes, nextFireTime_eq, Nat.mul_mod_left]

/-- C8: every arming computes its delay as the milliseconds from the current
time to the next wall-clock hour boundary (the target has minutes, seconds
and milliseconds zeroed): the delay is positive, at most one hour, and lands
exactly on a multiple of an hour; arming replaces any previously pending
timer with that single deadline; and on firing the loop re-arms itself so
that the `n+1`-st refetch happens exactly at the hour boundary following the
`n`-th one. -/
theorem hourly_refetch_schedule (now : Nat) :
    msUntilNextHour now = (now / MS_PER_HOUR + 1) * MS_PER_HOUR - now
    ∧ 0 < msUntilNextHour now
    ∧ msUntilNextHour now ≤ MS_PER_HOUR
    ∧ nextFireTime now % MS_PER_HOUR = 0
    ∧ (∀ pending, armHourlyTimer pending now = some (nextFireTime now))
    ∧ ∀ n, hourlyFireTimes now (n + 1) = hourlyFireTimes now n + MS_PER_HOUR := by
  refine ⟨?_, ?_, ?_, ?_, ?_, ?_⟩
  · simp only [msUntilNextHour, setHoursZeroed, getHoursOfMs, MS_PER_DAY,
      MS_PER_HOUR]
    omega
  · simp only [msUntilNextHour, setHoursZeroed, getHoursOfMs, MS_PER_DAY,
      MS_PER_HOUR]
    omega
  · simp only [msUntilNextHour, setHoursZeroed, getHoursOfMs, MS_PER_DAY,
      MS_PER_HOUR]
    omega
  · simp only [nextFireTime_eq]
    simp [Nat.mul_mod_left]
  · intro pending
    cases pending <;> rfl
  · intro n
    have hmod := hourlyFireTimes_mod now n
    have hstep : hourlyFireTimes now (n + 1)
        = (hourlyFireTimes now n / MS_PER_HOUR + 1) * MS_PER_HOUR := by
      simp only [hourlyFireTimes, nextFireTime_eq]
    rw [hstep]
    simp only [MS_PER_HOUR] at hmod ⊢
    omega

end DisplayCalendar
